import Mathlib

/-!
Shallow embedding of the eager association-loading engine of `eager.go`
(package pop). The engine decides a loading strategy from a tri-state mode,
introspects a model for association descriptors, issues one sub-query per
non-skipped association, dispatches fetch-all vs fetch-first by cardinality,
and recurses into inner associations. The query builder, the database and the
descriptor introspection (`associations.AssociationsForStruct`) are external
collaborators, modelled as an explicit environment of oracle functions.
Every operation additionally returns a trace of the externally observable
events (descriptor extractions and issued sub-queries).
-/

set_option autoImplicit false

namespace Pop

/-- A reflective Go value as seen by the loader: a scalar, a struct with named
fields, or a slice/array of values. -/
inductive Val where
  | prim (s : String)
  | record (fields : List (String × Val))
  | coll (elems : List Val)
deriving Repr

/-- `eagerMode` is a Go `uint8`; the three declared constants follow, but any
numeric value is representable (modelled as `Nat`, no arithmetic is done). -/
def EagerDefault : Nat := 0

/-- `EagerCache` constant of `eager.go`. -/
def EagerCache : Nat := 1

/-- `eagerNotSpecified` constant of `eager.go`: the initial mode of every
fresh query. -/
def eagerNotSpecified : Nat := 2

/-- The slice of a `Query`'s state that `eager.go` reads and writes:
`eagerMode`, `eagerFields`, and the (opaque) connection handle. -/
structure QState where
  eagerMode : Nat
  eagerFields : List String
  conn : Nat
deriving Repr, DecidableEq

/-- Errors crossing the loader's boundary. `noRows` embeds `sql.ErrNoRows`;
`missingField` models the reflect panic on a missing `FieldByName`;
`outOfFuel` is the artificial out-of-recursion-budget marker of the
fuel-indexed embedding. -/
inductive PErr where
  | noRows
  | db (msg : String)
  | introspect (msg : String)
  | unsupportedMode (m : Nat)
  | missingField (name : String)
  | outOfFuel
deriving Repr, DecidableEq

/-- Reflective kind of an association's destination: slice/array (`collection`),
struct (`single`), or anything else (`other`, for which `eagerLoadDefault`
issues no fetch at all). -/
inductive AKind where
  | collection
  | single
  | other
deriving Repr, DecidableEq

/-- One `(Name, Fields)` entry of `association.InnerAssociations()`. -/
structure InnerAssoc where
  name : String
  fields : String
deriving Repr, DecidableEq

/-- An association descriptor as `eagerLoadDefault` consumes it: the field it
populates (the destination of `association.Interface()`), `Skipped()`, the
`Constraint()` pair, the `OrderBy()` result when the association implements
`AssociationSortable` (`none` when it does not), the reflective `Kind()`, and
`InnerAssociations()`. -/
structure Assoc where
  fieldName : String
  skipped : Bool
  whereClause : String
  args : List String
  sortable : Option String
  kind : AKind
  inner : List InnerAssoc
deriving Repr, DecidableEq

/-- The sub-query built for one association: fresh query on the same
connection, `eager` turned off, the constraint as its WHERE clause, and an
optional order clause. -/
structure SubQuery where
  conn : Nat
  eager : Bool
  whereClause : String
  args : List String
  order : Option String
deriving Repr, DecidableEq

/-- Observable events of one load call: a descriptor extraction (with the
`eagerFields` whitelist passed to it), an issued sub-query fetch (`first` is
true for the fetch-first path), and the start of one collection-element
resolution. -/
inductive Ev where
  | extract (fields : List String)
  | fetch (sq : SubQuery) (raw : String × List String) (first : Bool)
  | elemResolve
deriving Repr, DecidableEq

/-- The external collaborators: descriptor introspection
(`associations.AssociationsForStruct`), query translation (`ToSQL`), and the
two fetch operations (`query.All`, `query.First`) keyed by the translated raw
statement. -/
structure Env where
  assocsFor : Val → List String → Except PErr (List Assoc)
  toSQL : SubQuery → String × List String
  fetchAll : String × List String → Except PErr Val
  fetchFirst : String × List String → Except PErr Val

/-- Result of one load operation: the updated query state, the updated model
value, the event trace, and the error if one was returned. -/
abbrev Res := QState × Val × List Ev × Option PErr

/-- Field lookup in a record's field list (reflect `FieldByName`). -/
def getField : List (String × Val) → String → Option Val
  | [], _ => none
  | (k, v) :: rest, n => if k = n then some v else getField rest n

/-- Field update in a record's field list; a missing name is untouched (the
source only writes through pointers obtained from existing fields). -/
def setField : List (String × Val) → String → Val → List (String × Val)
  | [], _, _ => []
  | (k, v) :: rest, n, w =>
    if k = n then (k, w) :: rest else (k, v) :: setField rest n w

/-- `FieldByName` on a model value. -/
def getFieldVal : Val → String → Option Val
  | Val.record fs, n => getField fs n
  | _, _ => none

/-- Write a field of a model value through its pointer. -/
def setFieldVal : Val → String → Val → Val
  | Val.record fs, n, w => Val.record (setField fs n w)
  | v, _, _ => v

/-- Builds the per-association sub-query of `eagerLoadDefault`: `Q(q.Connection)`
with `eager = false`, the constraint as WHERE, and — only when the association
is sortable and its `OrderBy()` is non-empty — that clause as the order. -/
def buildSubQuery (q : QState) (a : Assoc) : SubQuery :=
  let sq : SubQuery :=
    { conn := q.conn, eager := false, whereClause := a.whereClause,
      args := a.args, order := none }
  match a.sortable with
  | some s => if s = "" then sq else { sq with order := some s }
  | none => sq

/-- The cardinality dispatch of `eagerLoadDefault`: translate the sub-query and
run `query.All` for slice/array kinds, `query.First` for struct kinds, and no
fetch at all for any other kind. Returns the fetch outcome (`none` when no
fetch ran) and the issued-sub-query events. -/
def fetchStep (env : Env) (q : QState) (a : Assoc) :
    Option (Except PErr Val) × List Ev :=
  let sq := buildSubQuery q a
  let raw := env.toSQL sq
  match a.kind with
  | AKind.collection => (some (env.fetchAll raw), [Ev.fetch sq raw false])
  | AKind.single => (some (env.fetchFirst raw), [Ev.fetch sq raw true])
  | AKind.other => (none, [])

/-- The inner-association loop of `eagerLoadDefault`, parameterised by the
recursive load continuation: for each `(Name, Fields)` pair in order, look the
named field up on the owning record, overwrite `q.eagerFields` with the
one-element nested filter, recurse on the field's current value, write the
result back through the field pointer, and abort on the first error. -/
def loadInnersC (load : QState → Val → Res) :
    QState → Val → List InnerAssoc → Res
  | q, r, [] => (q, r, [], none)
  | q, r, ia :: rest =>
    match getFieldVal r ia.name with
    | none => (q, r, [], some (PErr.missingField ia.name))
    | some fv =>
      match load { q with eagerFields := [ia.fields] } fv with
      | (q₁, fv₁, tr₁, some err) => (q₁, setFieldVal r ia.name fv₁, tr₁, some err)
      | (q₁, fv₁, tr₁, none) =>
        match loadInnersC load q₁ (setFieldVal r ia.name fv₁) rest with
        | (q₂, r₂, tr₂, e₂) => (q₂, r₂, tr₁ ++ tr₂, e₂)

/-- The body of `eagerLoadDefault`'s association loop for one descriptor:
skipped associations do nothing; otherwise build and issue the sub-query,
return any error other than `noRows` immediately (leaving the field
untouched), and on success (field populated) or tolerated `noRows` (field
untouched) run the inner-association loop. -/
def processAssocC (load : QState → Val → Res) (env : Env)
    (q : QState) (r : Val) (a : Assoc) : Res :=
  if a.skipped then (q, r, [], none)
  else
    match fetchStep env q a with
    | (some (Except.error e), evs) =>
      if e = PErr.noRows then
        match loadInnersC load q r a.inner with
        | (q₁, r₁, tr₁, e₁) => (q₁, r₁, evs ++ tr₁, e₁)
      else (q, r, evs, some e)
    | (some (Except.ok w), evs) =>
      match loadInnersC load q (setFieldVal r a.fieldName w) a.inner with
      | (q₁, r₁, tr₁, e₁) => (q₁, r₁, evs ++ tr₁, e₁)
    | (none, evs) =>
      match loadInnersC load q r a.inner with
      | (q₁, r₁, tr₁, e₁) => (q₁, r₁, evs ++ tr₁, e₁)

/-- The association loop of `eagerLoadDefault`: descriptors in order, stopping
at the first returned error. -/
def loadAssocsC (load : QState → Val → Res) (env : Env) :
    QState → Val → List Assoc → Res
  | q, r, [] => (q, r, [], none)
  | q, r, a :: rest =>
    match processAssocC load env q r a with
    | (q₁, r₁, tr₁, some err) => (q₁, r₁, tr₁, some err)
    | (q₁, r₁, tr₁, none) =>
      match loadAssocsC load env q₁ r₁ rest with
      | (q₂, r₂, tr₂, e₂) => (q₂, r₂, tr₁ ++ tr₂, e₂)

/-- The single-record path of `eagerLoadDefault`: extract descriptors with the
current `eagerFields` whitelist (failure is fatal), then run the association
loop. -/
def loadRecordC (load : QState → Val → Res) (env : Env)
    (q : QState) (r : Val) : Res :=
  match env.assocsFor r q.eagerFields with
  | Except.error e => (q, r, [Ev.extract q.eagerFields], some e)
  | Except.ok assocs =>
    match loadAssocsC load env q r assocs with
    | (q₁, r₁, tr₁, e₁) => (q₁, r₁, Ev.extract q.eagerFields :: tr₁, e₁)

/-- The slice/array branch of `eagerLoadDefault`: apply the load continuation
to every element in original order, threading the (shared, mutable) query
state, and return the first element error without touching later elements. -/
def loadElemsC (load : QState → Val → Res) :
    QState → List Val → QState × List Val × List Ev × Option PErr
  | q, [] => (q, [], [], none)
  | q, v :: vs =>
    match load q v with
    | (q₁, v₁, tr₁, some err) => (q₁, v₁ :: vs, Ev.elemResolve :: tr₁, some err)
    | (q₁, v₁, tr₁, none) =>
      match loadElemsC load q₁ vs with
      | (q₂, vs₂, tr₂, e₂) => (q₂, v₁ :: vs₂, Ev.elemResolve :: (tr₁ ++ tr₂), e₂)

/-- `(*Query).eagerLoadDefault`, fuel-indexed: a slice or array model resolves
each element in order with the same function; any other model goes through
descriptor extraction and the association loop, recursing into inner
associations at one less fuel. -/
def eagerLoadDefault (env : Env) : Nat → QState → Val → Res
  | 0, q, v => (q, v, [], some PErr.outOfFuel)
  | fuel + 1, q, v =>
    match v with
    | Val.coll vs =>
      match loadElemsC (eagerLoadDefault env fuel) q vs with
      | (q₁, vs₁, tr₁, e₁) => (q₁, Val.coll vs₁, tr₁, e₁)
    | _ => loadRecordC (eagerLoadDefault env fuel) env q v

/-- `(*Query).eagerLoadCache`: the declared but unimplemented batched
strategy — returns success and does nothing. -/
def eagerLoadCache (_env : Env) (q : QState) (v : Val) : Res :=
  (q, v, [], none)

/-- `(*Query).eagerLoad`: late binding of the process-wide mode (`emode` is the
process-wide value read at load time) into a query whose mode is
`eagerNotSpecified`, then dispatch by the query's mode; an unrecognised mode is
a configuration error whose payload carries the process-wide value, exactly as
the source's error message does. -/
def eagerLoad (env : Env) (fuel : Nat) (emode : Nat) (q : QState) (v : Val) :
    Res :=
  let q := if q.eagerMode = eagerNotSpecified then { q with eagerMode := emode } else q
  if q.eagerMode = EagerDefault then eagerLoadDefault env fuel q v
  else if q.eagerMode = EagerCache then eagerLoadCache env q v
  else (q, v, [], some (PErr.unsupportedMode emode))

/-- The effective mode a query dispatches with: its own mode, or the
process-wide mode at load time when its own is `eagerNotSpecified`. -/
def effectiveMode (emode : Nat) (q : QState) : Nat :=
  if q.eagerMode = eagerNotSpecified then emode else q.eagerMode

/-- Modelled from the spec: the `Q` constructor of `query.go` (outside this
package's sources) initialises every query with `eagerNotSpecified`, per the
source comment on the constant and section 3 of the design. -/
def mkQuery (conn : Nat) : QState :=
  { eagerMode := eagerNotSpecified, eagerFields := [], conn := conn }

/-- `(*Query).SetEagerMode`: overwrite one query's mode in place. -/
def setEagerMode (q : QState) (m : Nat) : QState :=
  { q with eagerMode := m }

/-! Concrete fixtures used to evaluate the engine on closed inputs. -/

/-- An environment with no associations anywhere. -/
def envTriv : Env :=
  { assocsFor := fun _ _ => Except.ok []
  , toSQL := fun sq => (sq.whereClause, sq.args)
  , fetchAll := fun _ => Except.ok (Val.coll [])
  , fetchFirst := fun _ => Except.error PErr.noRows }

/-- A collection-kind association (a car's wheels). -/
def aWheels : Assoc :=
  { fieldName := "Wheels", skipped := false, whereClause := "car_id = ?",
    args := ["1"], sortable := none, kind := AKind.collection, inner := [] }

/-- A single-record-kind association (a car's owner). -/
def aOwner : Assoc :=
  { fieldName := "Owner", skipped := false, whereClause := "owner_id = ?",
    args := ["2"], sortable := none, kind := AKind.single, inner := [] }

/-- The wheels association marked skipped. -/
def aWheelsSkipped : Assoc :=
  { aWheels with skipped := true }

/-- A car record with both association fields at their zero values. -/
def rCar : Val :=
  Val.record [("Wheels", Val.coll []), ("Owner", Val.prim "0")]

/-- A query state in default mode with an empty whitelist. -/
def qCar : QState :=
  { eagerMode := EagerDefault, eagerFields := [], conn := 0 }

/-- An environment whose collection fetch reports the distinguished "no rows"
error while the single-record fetch succeeds; descriptor extraction on the car
yields the wheels and owner associations. -/
def envNoRowsAll : Env :=
  { assocsFor := fun _ _ => Except.ok [aWheels, aOwner]
  , toSQL := fun sq => (sq.whereClause, sq.args)
  , fetchAll := fun _ => Except.error PErr.noRows
  , fetchFirst := fun _ => Except.ok (Val.prim "p") }

/-- An environment whose descriptor extraction fails on scalar models and
yields no associations elsewhere. -/
def envBadPrim : Env :=
  { assocsFor := fun v _ =>
      match v with
      | Val.prim _ => Except.error (PErr.introspect "bad")
      | _ => Except.ok []
  , toSQL := fun sq => (sq.whereClause, sq.args)
  , fetchAll := fun _ => Except.ok (Val.coll [])
  , fetchFirst := fun _ => Except.ok (Val.prim "p") }

/-- An environment whose single-record fetch fails with a database error. -/
def envDbErr : Env :=
  { assocsFor := fun _ _ => Except.ok [aOwner]
  , toSQL := fun sq => (sq.whereClause, sq.args)
  , fetchAll := fun _ => Except.ok (Val.coll [])
  , fetchFirst := fun _ => Except.error (PErr.db "boom") }

/-- An author record whose books association carries an inner association
named after a different field of the author. -/
def aBooks : Assoc :=
  { fieldName := "Books", skipped := false, whereClause := "author_id = ?",
    args := ["7"], sortable := none, kind := AKind.collection,
    inner := [⟨"P", "pub"⟩] }

/-- An author record with a books field and a separate field the inner
association names. -/
def rAuthor : Val :=
  Val.record [("Books", Val.coll []), ("P", Val.record [])]

/-- An environment for the author fixture: the books fetch succeeds. -/
def envAuthor : Env :=
  { assocsFor := fun _ _ => Except.ok [aBooks]
  , toSQL := fun sq => (sq.whereClause, sq.args)
  , fetchAll := fun _ => Except.ok (Val.coll [Val.record []])
  , fetchFirst := fun _ => Except.error PErr.noRows }

/-- The books association with two inner associations, naming two different
fields of the author record, with two different nested filters. -/
def aBooksTwoInner : Assoc :=
  { fieldName := "Books", skipped := false, whereClause := "author_id = ?",
    args := ["7"], sortable := none, kind := AKind.collection,
    inner := [⟨"P", "pub"⟩, ⟨"Q", "quo"⟩] }

/-- An author record with a books field and the two fields the inner
associations name. -/
def rAuthorTwo : Val :=
  Val.record [("Books", Val.coll []), ("P", Val.record []), ("Q", Val.prim "q0")]

/-- A single-record association with inner association `("B", f)`, used to
observe the whitelist after a nested load with filter `f`. -/
def aInnerB (f : String) : Assoc :=
  { fieldName := "A", skipped := false, whereClause := "a_id = ?",
    args := ["1"], sortable := none, kind := AKind.single,
    inner := [⟨"B", f⟩] }

/-- First element of the two-element frame-effect fixture: carries the field
the association populates and the field its inner association names. -/
def rElem1 : Val :=
  Val.record [("A", Val.prim "0"), ("B", Val.record [("x", Val.prim "0")])]

/-- Second element of the frame-effect fixture: a record of a different shape,
with no associations. -/
def rElem2 : Val :=
  Val.record [("C", Val.prim "0")]

/-- Environment of the frame-effect fixture, parameterised by the nested
filter `f`: records starting with field `A` expose the association `aInnerB f`;
all other models have no associations. -/
def envFrame (f : String) : Env :=
  { assocsFor := fun v _ =>
      match v with
      | Val.record (("A", _) :: _) => Except.ok [aInnerB f]
      | _ => Except.ok []
  , toSQL := fun sq => (sq.whereClause, sq.args)
  , fetchAll := fun _ => Except.ok (Val.coll [])
  , fetchFirst := fun _ => Except.ok (Val.prim "fetched") }

/-- A sortable association whose order producer yields a non-empty clause. -/
def aSorted : Assoc :=
  { aWheels with sortable := some "name asc" }

/-- A sortable association whose order producer yields the empty clause. -/
def aSortedEmpty : Assoc :=
  { aWheels with sortable := some "" }

end Pop

namespace Pop

/-! Helper lemmas about the loops of `eagerLoadDefault`. -/

/-- The association loop splits at any point after which no error has yet been
returned: the remaining descriptors are processed from the state the prefix
left behind. -/
theorem loadAssocsC_append_of_ok (load : QState → Val → Res) (env : Env)
    (as₁ : List Assoc) {q q₁ q₂ : QState} {r r₁ r₂ : Val} {tr₁ tr₂ : List Ev}
    {e₂ : Option PErr} (as₂ : List Assoc)
    (h : loadAssocsC load env q r as₁ = (q₁, r₁, tr₁, none))
    (h₂ : loadAssocsC load env q₁ r₁ as₂ = (q₂, r₂, tr₂, e₂)) :
    loadAssocsC load env q r (as₁ ++ as₂) = (q₂, r₂, tr₁ ++ tr₂, e₂) := by
  induction as₁ generalizing q r tr₁ with
  | nil =>
    simp only [loadAssocsC, Prod.mk.injEq] at h
    obtain ⟨rfl, rfl, rfl, -⟩ := h
    simpa using h₂
  | cons a t ih =>
    rcases hp : processAssocC load env q r a with ⟨qa, ra, tra, ea⟩
    cases ea with
    | some err =>
      simp only [loadAssocsC, hp, Prod.mk.injEq] at h
      exact absurd h.2.2.2 (by simp)
    | none =>
      rcases hb : loadAssocsC load env qa ra t with ⟨qb, rb, trb, eb⟩
      simp only [loadAssocsC, hp, hb, Prod.mk.injEq] at h
      obtain ⟨rfl, rfl, rfl, rfl⟩ := h
      have ihx := ih hb
      simp only [List.cons_append, loadAssocsC, hp, ihx]
      simp [ihx, List.append_assoc]

/-- The element loop of the slice/array branch splits the same way: after an
error-free run over a first group of elements, the remaining elements are
resolved from the query state the run left behind. -/
theorem loadElemsC_append_of_ok (load : QState → Val → Res)
    (vs₁ : List Val) {q q₁ q₂ : QState} {vs₁' vs₂' : List Val}
    {tr₁ tr₂ : List Ev} {e₂ : Option PErr} (vs₂ : List Val)
    (h : loadElemsC load q vs₁ = (q₁, vs₁', tr₁, none))
    (h₂ : loadElemsC load q₁ vs₂ = (q₂, vs₂', tr₂, e₂)) :
    loadElemsC load q (vs₁ ++ vs₂) = (q₂, vs₁' ++ vs₂', tr₁ ++ tr₂, e₂) := by
  induction vs₁ generalizing q vs₁' tr₁ with
  | nil =>
    simp only [loadElemsC, Prod.mk.injEq] at h
    obtain ⟨rfl, rfl, rfl, -⟩ := h
    simpa using h₂
  | cons v t ih =>
    rcases hl : load q v with ⟨qa, va, tra, ea⟩
    cases ea with
    | some err =>
      simp only [loadElemsC, hl, Prod.mk.injEq] at h
      exact absurd h.2.2.2 (by simp)
    | none =>
      rcases hb : loadElemsC load qa t with ⟨qb, vsb, trb, eb⟩
      simp only [loadElemsC, hl, hb, Prod.mk.injEq] at h
      obtain ⟨rfl, rfl, rfl, rfl⟩ := h
      have ihx := ih hb
      simp only [List.cons_append, loadElemsC, hl, ihx]
      simp [ihx, List.append_assoc]

/-- C4: a query whose mode is `eagerNotSpecified` at load time dispatches by
the process-wide mode read at that moment — a different process-wide value
selects a different strategy — while a query with an explicitly set `default`
or `cache` mode dispatches by its own mode, whatever the process-wide value. -/
theorem eager_mode_late_binding (env : Env) (fuel m : Nat) (q : QState) (v : Val) :
    (q.eagerMode = eagerNotSpecified →
      eagerLoad env fuel m q v =
        (if m = EagerDefault then eagerLoadDefault env fuel { q with eagerMode := m } v
         else if m = EagerCache then eagerLoadCache env { q with eagerMode := m } v
         else ({ q with eagerMode := m }, v, [], some (PErr.unsupportedMode m))))
    ∧ (q.eagerMode = EagerDefault → eagerLoad env fuel m q v = eagerLoadDefault env fuel q v)
    ∧ (q.eagerMode = EagerCache → eagerLoad env fuel m q v = eagerLoadCache env q v) := by
  obtain ⟨qm, fs, c⟩ := q
  refine ⟨fun h => ?_, fun h => ?_, fun h => ?_⟩ <;>
    simp_all [eagerLoad, EagerDefault, EagerCache, eagerNotSpecified]

/-- Witness for C4: with the same not-yet-moded query, a process-wide mode of
`default` dispatches to the default strategy and a process-wide mode of
`cache` dispatches to the cache strategy. -/
theorem eager_mode_late_binding_witness :
    eagerLoad envTriv 1 EagerDefault (mkQuery 0) rCar =
      eagerLoadDefault envTriv 1 { mkQuery 0 with eagerMode := EagerDefault } rCar ∧
    eagerLoad envTriv 1 EagerCache (mkQuery 0) rCar =
      eagerLoadCache envTriv { mkQuery 0 with eagerMode := EagerCache } rCar := by
  constructor
  · have h := (eager_mode_late_binding envTriv 1 EagerDefault (mkQuery 0) rCar).1 rfl
    simpa [EagerDefault, EagerCache] using h
  · have h := (eager_mode_late_binding envTriv 1 EagerCache (mkQuery 0) rCar).1 rfl
    simpa [EagerDefault, EagerCache] using h

/-- C7: when the mode a query dispatches with is outside
{default, cache, not-specified}, the load call returns a configuration error
(carrying the process-wide mode, as the source's message does) and runs no
strategy. -/
theorem unsupported_mode_error (env : Env) (fuel emode : Nat) (q : QState) (v : Val)
    (h₀ : effectiveMode emode q ≠ EagerDefault)
    (h₁ : effectiveMode emode q ≠ EagerCache)
    (h₂ : effectiveMode emode q ≠ eagerNotSpecified) :
    eagerLoad env fuel emode q v =
      ({ q with eagerMode := effectiveMode emode q }, v, [],
       some (PErr.unsupportedMode emode)) := by
  obtain ⟨qm, fs, c⟩ := q
  simp only [effectiveMode] at h₀ h₁ h₂ ⊢
  by_cases hm : qm = eagerNotSpecified <;>
    simp_all [eagerLoad, EagerDefault, EagerCache, eagerNotSpecified]

/-- Witness for C7: mode value 5 yields the unsupported-mode error. -/
theorem unsupported_mode_error_witness :
    eagerLoad envTriv 1 EagerDefault { eagerMode := 5, eagerFields := [], conn := 0 } rCar =
      ({ eagerMode := 5, eagerFields := [], conn := 0 }, rCar, [],
       some (PErr.unsupportedMode EagerDefault)) := by
  have h := unsupported_mode_error envTriv 1 EagerDefault
    { eagerMode := 5, eagerFields := [], conn := 0 } rCar
    (by decide) (by decide) (by decide)
  simpa [effectiveMode, eagerNotSpecified] using h

/-- C8: a skipped association issues no sub-query, leaves the record untouched,
and the loop proceeds directly to the next association. -/
theorem skipped_assoc_untouched (load : QState → Val → Res) (env : Env)
    (q : QState) (r : Val) (a : Assoc) (rest : List Assoc)
    (h : a.skipped = true) :
    processAssocC load env q r a = (q, r, [], none) ∧
    loadAssocsC load env q r (a :: rest) = loadAssocsC load env q r rest := by
  have hp : processAssocC load env q r a = (q, r, [], none) := by
    simp [processAssocC, h]
  refine ⟨hp, ?_⟩
  rcases hx : loadAssocsC load env q r rest with ⟨q₂, r₂, tr₂, e₂⟩
  simp [loadAssocsC, hp, hx]

/-- Witness for C8: the skipped wheels association contributes nothing. -/
theorem skipped_assoc_untouched_witness :
    processAssocC (fun p v => (p, v, [], none)) envTriv qCar rCar aWheelsSkipped =
      (qCar, rCar, [], none) ∧
    loadAssocsC (fun p v => (p, v, [], none)) envTriv qCar rCar [aWheelsSkipped, aOwner] =
      loadAssocsC (fun p v => (p, v, [], none)) envTriv qCar rCar [aOwner] :=
  skipped_assoc_untouched (fun p v => (p, v, [], none)) envTriv qCar rCar
    aWheelsSkipped [aOwner] rfl

/-- C9: a non-sortable association, or a sortable one whose order producer
returns the empty clause, yields a sub-query with no order; a non-empty clause
is applied exactly as produced. -/
theorem sortable_order_clause (q : QState) (a : Assoc) :
    ((a.sortable = none ∨ a.sortable = some "") → (buildSubQuery q a).order = none)
    ∧ (∀ s, a.sortable = some s → s ≠ "" → (buildSubQuery q a).order = some s) := by
  constructor
  · rintro (h | h) <;> simp [buildSubQuery, h]
  · intro s hs hne
    simp [buildSubQuery, hs, hne]

/-- Witness for C9: no order for the non-sortable and empty-clause
associations, the literal clause for the non-empty one. -/
theorem sortable_order_clause_witness :
    (buildSubQuery qCar aWheels).order = none ∧
    (buildSubQuery qCar aSortedEmpty).order = none ∧
    (buildSubQuery qCar aSorted).order = some "name asc" :=
  ⟨(sortable_order_clause qCar aWheels).1 (Or.inl rfl),
   (sortable_order_clause qCar aSortedEmpty).1 (Or.inr rfl),
   (sortable_order_clause qCar aSorted).2 "name asc" rfl (by decide)⟩

/-- C10: a load whose effective mode is cache dispatches to the stub strategy:
it returns success, issues no sub-query (empty trace), and leaves the model —
hence every association field — exactly as it was. -/
theorem cache_mode_noop (env : Env) (fuel emode : Nat) (q : QState) (v : Val)
    (h : q.eagerMode = EagerCache ∨ (q.eagerMode = eagerNotSpecified ∧ emode = EagerCache)) :
    eagerLoad env fuel emode q v = ({ q with eagerMode := EagerCache }, v, [], none) := by
  obtain ⟨qm, fs, c⟩ := q
  rcases h with h | ⟨h, rfl⟩ <;>
    simp_all [eagerLoad, eagerLoadCache, EagerDefault, EagerCache, eagerNotSpecified]

/-- Witness for C10: a cache-mode query on the car model returns success with
an empty trace and the model unchanged. -/
theorem cache_mode_noop_witness :
    eagerLoad envTriv 1 EagerDefault (setEagerMode (mkQuery 0) EagerCache) rCar =
      ({ eagerMode := EagerCache, eagerFields := [], conn := 0 }, rCar, [], none) := by
  have h := cache_mode_noop envTriv 1 EagerDefault (setEagerMode (mkQuery 0) EagerCache) rCar
    (Or.inl rfl)
  simpa [setEagerMode, mkQuery] using h

/-- Counterexample for C1: the "no rows" error is tolerated on the
collection (fetch-all) path as well — with a collection-kind wheels
association whose fetch reports "no rows", the call leaves the field at its
zero value, continues to the owner association, and returns success instead of
treating the error as fatal. -/
theorem noRows_tolerated_on_collection_fetch_cex :
    eagerLoadDefault envNoRowsAll 1 qCar rCar =
      (qCar,
       Val.record [("Wheels", Val.coll []), ("Owner", Val.prim "p")],
       [Ev.extract [],
        Ev.fetch
          { conn := 0, eager := false, whereClause := "car_id = ?", args := ["1"], order := none }
          ("car_id = ?", ["1"]) false,
        Ev.fetch
          { conn := 0, eager := false, whereClause := "owner_id = ?", args := ["2"], order := none }
          ("owner_id = ?", ["2"]) true],
       none) := by
  rfl

/-- C1 (amended): a "no rows" outcome is non-fatal on every fetch path —
fetch-first and fetch-all alike: the association's field is left at its prior
(zero) value and loading continues with the association's inner associations
and the remaining associations. -/
theorem noRows_tolerated_any_fetch_path (load : QState → Val → Res) (env : Env)
    (q : QState) (r : Val) (a : Assoc) (rest : List Assoc) (evs : List Ev)
    (hskip : a.skipped = false)
    (hfetch : fetchStep env q a = (some (Except.error PErr.noRows), evs)) :
    loadAssocsC load env q r (a :: rest) =
      (match loadInnersC load q r a.inner with
       | (q₁, r₁, tr₁, some err) => (q₁, r₁, evs ++ tr₁, some err)
       | (q₁, r₁, tr₁, none) =>
         match loadAssocsC load env q₁ r₁ rest with
         | (q₂, r₂, tr₂, e₂) => (q₂, r₂, (evs ++ tr₁) ++ tr₂, e₂)) := by
  rcases hi : loadInnersC load q r a.inner with ⟨q₁, r₁, tr₁, e₁⟩
  have hproc : processAssocC load env q r a = (q₁, r₁, evs ++ tr₁, e₁) := by
    simp [processAssocC, hskip, hfetch, hi]
  cases e₁ with
  | some err => simp [loadAssocsC, hproc]
  | none =>
    rcases hb : loadAssocsC load env q₁ r₁ rest with ⟨q₂, r₂, tr₂, e₂⟩
    simp [loadAssocsC, hproc, hb]

/-- Witness for the amended C1: the collection-kind wheels association's
"no rows" is recovered, the record is passed on untouched, and the owner
association is still processed. -/
theorem noRows_tolerated_any_fetch_path_witness :
    loadAssocsC (fun p v => (p, v, [], none)) envNoRowsAll qCar rCar [aWheels, aOwner] =
      (qCar,
       Val.record [("Wheels", Val.coll []), ("Owner", Val.prim "p")],
       [Ev.fetch
          { conn := 0, eager := false, whereClause := "car_id = ?", args := ["1"], order := none }
          ("car_id = ?", ["1"]) false,
        Ev.fetch
          { conn := 0, eager := false, whereClause := "owner_id = ?", args := ["2"], order := none }
          ("owner_id = ?", ["2"]) true],
       none) := by
  have h := noRows_tolerated_any_fetch_path (fun p v => (p, v, [], none)) envNoRowsAll
    qCar rCar aWheels [aOwner]
    [Ev.fetch
      { conn := 0, eager := false, whereClause := "car_id = ?", args := ["1"], order := none }
      ("car_id = ?", ["1"]) false]
    rfl rfl
  rw [h]
  rfl

/-- C2: loading a slice/array model resolves the elements independently and in
original order, threading the query state: any error-free first group composes
with the resolution of the rest, and an error at one element is returned as
the call's result with the later elements left exactly as they were. -/
theorem collection_elementwise_order (env : Env) (fuel : Nat) (q q₁ : QState)
    (vs₁ vs₁' : List Val) (tr₁ : List Ev)
    (h₁ : loadElemsC (eagerLoadDefault env fuel) q vs₁ = (q₁, vs₁', tr₁, none)) :
    (∀ vs₂ q₂ vs₂' tr₂ e₂,
        loadElemsC (eagerLoadDefault env fuel) q₁ vs₂ = (q₂, vs₂', tr₂, e₂) →
        eagerLoadDefault env (fuel + 1) q (Val.coll (vs₁ ++ vs₂)) =
          (q₂, Val.coll (vs₁' ++ vs₂'), tr₁ ++ tr₂, e₂))
    ∧ (∀ v vs₂ q₂ v₂ tr₂ err,
        eagerLoadDefault env fuel q₁ v = (q₂, v₂, tr₂, some err) →
        eagerLoadDefault env (fuel + 1) q (Val.coll (vs₁ ++ v :: vs₂)) =
          (q₂, Val.coll (vs₁' ++ v₂ :: vs₂), tr₁ ++ (Ev.elemResolve :: tr₂), some err)) := by
  constructor
  · intro vs₂ q₂ vs₂' tr₂ e₂ h₂
    have hx := loadElemsC_append_of_ok (eagerLoadDefault env fuel) vs₁ vs₂ h₁ h₂
    simp [eagerLoadDefault, hx]
  · intro v vs₂ q₂ v₂ tr₂ err hv
    have h₂ : loadElemsC (eagerLoadDefault env fuel) q₁ (v :: vs₂) =
        (q₂, v₂ :: vs₂, Ev.elemResolve :: tr₂, some err) := by
      simp [loadElemsC, hv]
    have hx := loadElemsC_append_of_ok (eagerLoadDefault env fuel) vs₁ (v :: vs₂) h₁ h₂
    simp [eagerLoadDefault, hx]

/-- Witness for C2: in a three-element collection whose middle element fails
descriptor introspection, the first element is resolved, the error is returned,
and the third element is neither resolved nor modified. -/
theorem collection_elementwise_order_witness :
    eagerLoadDefault envBadPrim 2 qCar
        (Val.coll [Val.record [], Val.prim "b", Val.record []]) =
      (qCar, Val.coll [Val.record [], Val.prim "b", Val.record []],
       [Ev.elemResolve, Ev.extract [], Ev.elemResolve, Ev.extract []],
       some (PErr.introspect "bad")) := by
  have h := (collection_elementwise_order envBadPrim 1 qCar qCar
      [Val.record []] [Val.record []] [Ev.elemResolve, Ev.extract []] rfl).2
    (Val.prim "b") [Val.record []] qCar (Val.prim "b") [Ev.extract []]
    (PErr.introspect "bad") rfl
  simpa using h

/-- C3: a fetch error other than "no rows" is returned unchanged as the load
call's result: the associations before the failing one keep the fields they
populated, the failing association's inner associations are never entered, and
the associations after it are not processed (the trace ends at the failing
fetch). -/
theorem fetch_error_aborts_load (env : Env) (fuel : Nat) (q q₁ : QState)
    (fs : List (String × Val)) (as₁ : List Assoc) (a : Assoc) (as₂ : List Assoc)
    (r₁ : Val) (tr₁ evs : List Ev) (e : PErr)
    (hassoc : env.assocsFor (Val.record fs) q.eagerFields = Except.ok (as₁ ++ a :: as₂))
    (hpre : loadAssocsC (eagerLoadDefault env fuel) env q (Val.record fs) as₁ =
      (q₁, r₁, tr₁, none))
    (hskip : a.skipped = false)
    (hfetch : fetchStep env q₁ a = (some (Except.error e), evs))
    (hne : e ≠ PErr.noRows) :
    eagerLoadDefault env (fuel + 1) q (Val.record fs) =
      (q₁, r₁, Ev.extract q.eagerFields :: (tr₁ ++ evs), some e) := by
  have hproc : processAssocC (eagerLoadDefault env fuel) env q₁ r₁ a =
      (q₁, r₁, evs, some e) := by
    simp [processAssocC, hskip, hfetch, hne]
  have hcons : loadAssocsC (eagerLoadDefault env fuel) env q₁ r₁ (a :: as₂) =
      (q₁, r₁, evs, some e) := by
    simp [loadAssocsC, hproc]
  have hx := loadAssocsC_append_of_ok (eagerLoadDefault env fuel) env as₁ (a :: as₂) hpre hcons
  simp [eagerLoadDefault, loadRecordC, hassoc, hx]

/-- Witness for C3: a database error on the owner fetch is the call's result
and the record is left as it was. -/
theorem fetch_error_aborts_load_witness :
    eagerLoadDefault envDbErr 1 qCar
        (Val.record [("Wheels", Val.coll []), ("Owner", Val.prim "0")]) =
      (qCar, Val.record [("Wheels", Val.coll []), ("Owner", Val.prim "0")],
       [Ev.extract [],
        Ev.fetch
          { conn := 0, eager := false, whereClause := "owner_id = ?", args := ["2"], order := none }
          ("owner_id = ?", ["2"]) true],
       some (PErr.db "boom")) := by
  have h := fetch_error_aborts_load envDbErr 0 qCar qCar
    [("Wheels", Val.coll []), ("Owner", Val.prim "0")] [] aOwner []
    (Val.record [("Wheels", Val.coll []), ("Owner", Val.prim "0")]) []
    [Ev.fetch
      { conn := 0, eager := false, whereClause := "owner_id = ?", args := ["2"], order := none }
      ("owner_id = ?", ["2"]) true]
    (PErr.db "boom") rfl rfl rfl rfl (by decide)
  simpa using h

/-- C5: after an association's field is populated, its whole innerAssociations
list is processed on the owning record, and for an inner list of any length the
pairs are processed in order: the head pair locates its named field on the
owning record itself (its current value, reflecting all population so far),
installs the one-element nested filter as the query's whitelist, recursively
loads that field's value, writes the result back into the owning record's
field, and only then are the remaining pairs processed, from the updated query
state and record; an error on one pair stops the later pairs. -/
theorem nested_recursion_on_owning_record (load : QState → Val → Res) (env : Env) :
    (∀ (q : QState) (r : Val) (a : Assoc) (w : Val) (evs : List Ev),
        a.skipped = false →
        fetchStep env q a = (some (Except.ok w), evs) →
        processAssocC load env q r a =
          (match loadInnersC load q (setFieldVal r a.fieldName w) a.inner with
           | (q₁, r₁, tr₁, e₁) => (q₁, r₁, evs ++ tr₁, e₁)))
    ∧ (∀ (p : QState) (r₀ : Val) (ia : InnerAssoc) (rest : List InnerAssoc) (fv : Val),
        getFieldVal r₀ ia.name = some fv →
        (∀ (q₁ : QState) (fv₁ : Val) (tr₁ : List Ev),
            load { p with eagerFields := [ia.fields] } fv = (q₁, fv₁, tr₁, none) →
            loadInnersC load p r₀ (ia :: rest) =
              (match loadInnersC load q₁ (setFieldVal r₀ ia.name fv₁) rest with
               | (q₂, r₂, tr₂, e₂) => (q₂, r₂, tr₁ ++ tr₂, e₂)))
        ∧ (∀ (q₁ : QState) (fv₁ : Val) (tr₁ : List Ev) (err : PErr),
            load { p with eagerFields := [ia.fields] } fv = (q₁, fv₁, tr₁, some err) →
            loadInnersC load p r₀ (ia :: rest) =
              (q₁, setFieldVal r₀ ia.name fv₁, tr₁, some err))) := by
  constructor
  · intro q r a w evs hskip hfetch
    rcases hi : loadInnersC load q (setFieldVal r a.fieldName w) a.inner with ⟨q₁, r₁, tr₁, e₁⟩
    simp [processAssocC, hskip, hfetch, hi]
  · intro p r₀ ia rest fv hget
    constructor
    · intro q₁ fv₁ tr₁ hload
      rcases hx : loadInnersC load q₁ (setFieldVal r₀ ia.name fv₁) rest with ⟨q₂, r₂, tr₂, e₂⟩
      simp [loadInnersC, hget, hload, hx]
    · intro q₁ fv₁ tr₁ err hload
      simp [loadInnersC, hget, hload]

/-- Witness for C5: the books association with two inner pairs populates the
author's Books field, then processes the pairs in order — "P" first with
whitelist ["pub"], then "Q" with whitelist ["quo"] — each looked up on the
author record itself (fields distinct from the one just loaded); the returned
query carries the second pair's filter. -/
theorem nested_recursion_on_owning_record_witness :
    processAssocC (fun p v => (p, v, [], none)) envAuthor qCar rAuthorTwo aBooksTwoInner =
      ({ eagerMode := EagerDefault, eagerFields := ["quo"], conn := 0 },
       Val.record
         [("Books", Val.coll [Val.record []]), ("P", Val.record []), ("Q", Val.prim "q0")],
       [Ev.fetch
          { conn := 0, eager := false, whereClause := "author_id = ?", args := ["7"], order := none }
          ("author_id = ?", ["7"]) false],
       none) := by
  have h := nested_recursion_on_owning_record (fun p v => (p, v, [], none)) envAuthor
  have h₁ := h.1 qCar rAuthorTwo aBooksTwoInner (Val.coll [Val.record []])
    [Ev.fetch
      { conn := 0, eager := false, whereClause := "author_id = ?", args := ["7"], order := none }
      ("author_id = ?", ["7"]) false]
    rfl rfl
  rw [h₁]
  rfl

/-- C6: processing an association whose inner associations are non-empty
overwrites `eagerFields` with the nested filter and never restores it:
whatever whitelist `ws` the call started with, after the first element of the
collection is loaded the query's whitelist is `[f]`, the second element's
descriptor extraction already receives `[f]`, and the returned query still
carries `[f]`. -/
theorem eagerFields_overwritten_not_restored (ws : List String) (f : String) :
    eagerLoadDefault (envFrame f) 3
        { eagerMode := EagerDefault, eagerFields := ws, conn := 0 }
        (Val.coll [rElem1, rElem2]) =
      ({ eagerMode := EagerDefault, eagerFields := [f], conn := 0 },
       Val.coll
         [Val.record [("A", Val.prim "fetched"), ("B", Val.record [("x", Val.prim "0")])],
          rElem2],
       [Ev.elemResolve, Ev.extract ws,
        Ev.fetch
          { conn := 0, eager := false, whereClause := "a_id = ?", args := ["1"], order := none }
          ("a_id = ?", ["1"]) true,
        Ev.extract [f],
        Ev.elemResolve, Ev.extract [f]],
       none) := by
  rfl

end Pop

